import Mathlib

/-!
Verification development for the ImageIndexer tagging pipeline
(`src/llmii.py`). The definitions below are a shallow embedding of the
pure decision and text-transformation logic of the source: the keyword
normalizer, the keyword deduplication step, the per-file status state
machine (`check_uuid`), the metadata generation step, the orchestrator's
retry logic in `process_file`, the raw-field reduction in
`process_directory`, and the tolerant JSON extraction (`clean_json`).

External boundaries (the exiftool subprocess, the HTTP inference call,
the filesystem) enter as explicit parameters: a boolean for the success
of a metadata write, strings for freshly drawn UUIDs, and already
received generation results.  Helpers imported from `llmii_utils`
(`de_pluralize`, `AND_EXCEPTIONS`, `first_json`), whose source is not
part of the repository snapshot, are modelled from the specification
and carry a doc comment saying so.
-/

namespace ImageIndexer

/-- Decidable equality for `Except`, used to evaluate the embedded
fallible functions on concrete inputs. -/
instance {ε α : Type} [DecidableEq ε] [DecidableEq α] : DecidableEq (Except ε α) :=
  fun x y =>
    match x, y with
    | .ok a, .ok b =>
        if h : a = b then isTrue (by rw [h]) else
          isFalse (fun hh => h (Except.ok.inj hh))
    | .error a, .error b =>
        if h : a = b then isTrue (by rw [h]) else
          isFalse (fun hh => h (Except.error.inj hh))
    | .ok _, .error _ => isFalse (fun hh => Except.noConfusion hh)
    | .error _, .ok _ => isFalse (fun hh => Except.noConfusion hh)

/-- Configuration flags, mirroring the defaults assigned in
`Config.__init__` of `src/llmii.py` (only the fields consulted by the
embedded logic are kept). -/
structure Config where
  dry_run : Bool
  update_keywords : Bool
  reprocess_failed : Bool
  reprocess_all : Bool
  reprocess_orphans : Bool
  detailed_caption : Bool
  short_caption : Bool
  quick_fail : Bool
  no_caption : Bool
  update_caption : Bool
  normalize_keywords : Bool
  depluralize_keywords : Bool
  limit_word_count : Bool
  max_words_per_keyword : Nat
  split_and_entries : Bool
  ban_prompt_words : Bool
  no_digits_start : Bool
  min_word_length : Bool
  latin_only : Bool
deriving Repr, DecidableEq

/-- The default values from `Config.__init__`.  The `DefaultConfig`
fallback built inside `normalize_keyword` agrees with these on every
normalization-related field. -/
def Config.default : Config :=
  { dry_run := false
    update_keywords := false
    reprocess_failed := false
    reprocess_all := false
    reprocess_orphans := true
    detailed_caption := false
    short_caption := true
    quick_fail := false
    no_caption := false
    update_caption := false
    normalize_keywords := true
    depluralize_keywords := true
    limit_word_count := true
    max_words_per_keyword := 2
    split_and_entries := true
    ban_prompt_words := true
    no_digits_start := true
    min_word_length := true
    latin_only := true }

/-- The banned-word list assigned in `FileProcessor.__init__`. -/
def banned_words : List String :=
  ["no", "unspecified", "unknown", "standard", "unidentified", "time",
   "category", "actions", "setting", "objects", "visual", "elements",
   "activities", "appearance", "professions", "relationships", "identify",
   "photography", "photographic", "topiary"]

/-! ## Keyword normalizer

String primitives are modelled on character lists (computable by the
kernel) rather than through the positional core-library loops. -/

/-- Python `str.strip()`: drop leading and trailing whitespace. -/
def trimStr (s : String) : String :=
  String.mk (((s.toList.dropWhile (fun c => c.isWhitespace)).reverse.dropWhile
    (fun c => c.isWhitespace)).reverse)

/-- Python `str.lower()` (ASCII reading). -/
def lowerStr (s : String) : String :=
  String.mk (s.toList.map (fun c => c.toLower))

/-- Accumulating splitter for `str.split()`. -/
def splitWsAux : List Char → List Char → List String
  | [], acc => if acc.isEmpty then [] else [String.mk acc.reverse]
  | c :: cs, acc =>
      if c.isWhitespace then
        if acc.isEmpty then splitWsAux cs []
        else String.mk acc.reverse :: splitWsAux cs []
      else splitWsAux cs (c :: acc)

/-- Python `str.split()`: split on whitespace runs, dropping empty pieces. -/
def splitWs (s : String) : List String :=
  splitWsAux s.toList []

/-- Accumulating splitter for `str.split(sep)` with a one-character
separator (empty pieces kept, as in Python). -/
def splitCharAux (sep : Char) : List Char → List Char → List String
  | [], acc => [String.mk acc.reverse]
  | c :: cs, acc =>
      if c = sep then String.mk acc.reverse :: splitCharAux sep cs []
      else splitCharAux sep cs (c :: acc)

/-- Python `str.split(sep)` for a one-character separator. -/
def splitChar (sep : Char) (s : String) : List String :=
  splitCharAux sep s.toList []

/-- Python `str.endswith(suffix)`. -/
def endsWithStr (s suffix : String) : Bool :=
  suffix.toList.reverse.isPrefixOf s.toList.reverse

/-- Python `" ".join(...)`. -/
def joinSpace (l : List String) : String :=
  String.intercalate " " l

/-- `split_on_internal_capital` from `src/llmii.py`: insert a space
before the first uppercase letter at index 4 or later; words of length
at most 4 are returned unchanged. -/
def split_on_internal_capital (word : String) : String :=
  if word.length ≤ 4 then word
  else
    match (word.toList.drop 4).findIdx? (fun c => c.isUpper) with
    | some j =>
        let i := 4 + j
        String.mk (word.toList.take i) ++ " " ++ String.mk (word.toList.drop i)
    | none => word

/-- Modelled from the spec: `de_pluralize` from `llmii_utils` (its source
file is not under `src/`).  The spec only says words are "singularized";
this model drops one trailing letter s, except after another s. -/
def de_pluralize (w : String) : String :=
  if endsWithStr w "ss" then w
  else if endsWithStr w "s" then w.dropRight 1
  else w

/-- Modelled from the spec: `AND_EXCEPTIONS` from `llmii_utils` (source
not under `src/`), the fixed allow-list of three-word and/or phrases.
Its contents are not given by the spec; the spec's own example
(normalize "cats and dogs" gives "cat dog") implies that phrase is
absent, which is all the development relies on. -/
def AND_EXCEPTIONS : List String :=
  ["black and white", "rock and roll", "salt and pepper"]

/-- A character matched by Python's `\w` on the ASCII range. -/
def isWordChar (c : Char) : Bool :=
  c.isAlphanum || c = '_'

/-- Model of `re.sub(r'[^\x00-\x7F]', '', s)`. -/
def asciiOnly (s : String) : String :=
  String.mk (s.toList.filter (fun c => c.toNat ≤ 127))

/-- Model of `re.sub(r'[^\w\s-]', '', s)` (ASCII reading of `\w`). -/
def stripNonWord (s : String) : String :=
  String.mk (s.toList.filter (fun c => isWordChar c || c.isWhitespace || c = '-'))

/-- Collapse each maximal run of characters satisfying `p` into the
single character `rep` (models `re.sub(r'\s+', ' ', s)` and
`re.sub(r'-+', '-', s)`). -/
def collapseRun (p : Char → Bool) (rep : Char) : List Char → List Char
  | [] => []
  | [c] => if p c then [rep] else [c]
  | c1 :: c2 :: cs =>
      if p c1 && p c2 then collapseRun p rep (c2 :: cs)
      else (if p c1 then rep else c1) :: collapseRun p rep (c2 :: cs)

/-- The cleaning pipeline of `normalize_keyword` up to the token list
(lines 60 to 84 of `src/llmii.py`): internal-capital splitting,
lowercasing, optional non-ASCII removal, punctuation stripping,
whitespace and hyphen collapsing, underscore replacement, tokenizing. -/
def cleanTokens (keyword : String) (cfg : Config) : List String :=
  let words0 := splitWs (trimStr keyword)
  let split_words := words0.flatMap (fun w => splitWs (split_on_internal_capital w))
  let k1 := trimStr (lowerStr (joinSpace split_words))
  let k2 := if cfg.latin_only then asciiOnly k1 else k1
  let k3 := stripNonWord k2
  let k4 := String.mk (collapseRun (fun c => c.isWhitespace) ' ' k3.toList)
  let k5 := String.mk (collapseRun (fun c => c = '-') '-' k4.toList)
  let k6 := String.mk (k5.toList.map (fun c => if c = '_' then ' ' else c))
  splitWs k6

/-- Model of `re.match(r'^[\w]+-[\w]+$', token)`: exactly one hyphen,
strictly between two nonempty word-character runs. -/
def hyphenOk (t : String) : Bool :=
  match splitChar '-' t with
  | [a, b] => !a.isEmpty && !b.isEmpty
      && a.toList.all isWordChar && b.toList.all isWordChar
  | _ => false

/-- The token validation loop of `normalize_keyword`: hyphenated tokens
must match `word-word` (otherwise the whole phrase is rejected) and are
split into their parts for the `words` list; plain tokens pass through. -/
def buildWords : List String → Option (List String)
  | [] => some []
  | t :: ts =>
      if t.toList.contains '-' then
        if hyphenOk t then (buildWords ts).map (fun ws => splitChar '-' t ++ ws)
        else none
      else (buildWords ts).map (fun ws => t :: ws)

/-- Model of `re.match(r'^\d{3,}', w)` used by the leading-digit rule. -/
def startsWith3Digits (w : String) : Bool :=
  match w.toList with
  | a :: b :: c :: _ => a.isDigit && b.isDigit && c.isDigit
  | _ => false

/-- The final depluralization and join of `normalize_keyword` (lines
137 to 147): a single validated word is singularized outright; otherwise
only the last output token is singularized when there are at least two. -/
def finishTokens (cfg : Config) (words tokens1 : List String) : String :=
  let tokens2 :=
    if cfg.depluralize_keywords then
      if words.length = 1 then [de_pluralize (words.getD 0 "")]
      else if tokens1.length > 1 then
        tokens1.dropLast ++ [de_pluralize (tokens1.getLastD "")]
      else tokens1
    else tokens1
  joinSpace tokens2

/-- The and/or splitting step of `normalize_keyword` (lines 110 to
119): on an exactly-3-word phrase with middle word and/or that is not
on the allow-list, the output tokens become the singularized (when
enabled) first and third words; otherwise the tokens pass through. -/
def andSplitTokens (cfg : Config) (tokens words : List String) : List String :=
  if cfg.split_and_entries && decide (words.length = 3)
      && (words.getD 1 "" == "and" || words.getD 1 "" == "or")
      && !(AND_EXCEPTIONS.contains (joinSpace words)) then
    if cfg.depluralize_keywords then
      [de_pluralize (words.getD 0 ""), de_pluralize (words.getD 2 "")]
    else [words.getD 0 "", words.getD 2 ""]
  else tokens

/-- The validation and output tail of `normalize_keyword` (lines 104
to 147), after the `words` list has been built: word-count limit,
and/or splitting, per-word length and ban checks, the leading-digit
rule (whose `words[0]` access raises on an empty list), and the final
depluralizing join. -/
def normalizeWords (bw : List String) (cfg : Config) (tokens words : List String) :
    Except String (Option String) :=
  if cfg.limit_word_count && decide (words.length > cfg.max_words_per_keyword + 1) then
    .ok none
  else if cfg.min_word_length
      && words.any (fun w => decide (w.length < 2) && !(w == "x" || w == "u")) then
    .ok none
  else if cfg.ban_prompt_words && words.any (fun w => bw.contains w) then
    .ok none
  else
    match words.head? with
    | none =>
        if cfg.no_digits_start then .error "IndexError"
        else .ok (some (finishTokens cfg words (andSplitTokens cfg tokens words)))
    | some w0 =>
        if cfg.no_digits_start && startsWith3Digits w0 then .ok none
        else .ok (some (finishTokens cfg words (andSplitTokens cfg tokens words)))

/-- The hyphen validation followed by the word-level checks. -/
def normalizeClean (bw : List String) (cfg : Config) (tokens : List String) :
    Except String (Option String) :=
  match buildWords tokens with
  | none => .ok none
  | some words => normalizeWords bw cfg tokens words

/-- `normalize_keyword` from `src/llmii.py`.  `.ok none` is the
rejection (Python `None`), `.ok (some s)` a produced keyword, and
`.error` models the uncaught `IndexError` raised by `words[0]` at the
leading-digit check when the cleaned phrase has no tokens. -/
def normalize_keyword (keyword : String) (bw : List String) (cfg : Config) :
    Except String (Option String) :=
  if !cfg.normalize_keywords then .ok (some (trimStr keyword))
  else normalizeClean bw cfg (cleanTokens keyword cfg)

/-! ## Canonical records and keyword deduplication -/

/-- The canonical, de-aliased view of one file's metadata, as built by
`process_directory` (`SourceFile`, `XMP:Identifier`, `XMP:Status`,
`MWG:Description`, `MWG:Keywords`).  `none` models an absent key. -/
structure Metadata where
  sourceFile : String
  identifier : Option String
  status : Option String
  description : Option String
  keywords : Option (List String)
deriving Repr, DecidableEq

/-- Python truthiness of an optional string value. -/
def otruthy : Option String → Bool
  | some s => !s.isEmpty
  | none => false

/-- Python truthiness of an optional keyword list. -/
def ktruthy : Option (List String) → Bool
  | some l => !l.isEmpty
  | none => false

/-- One step of the deduplicating accumulation in `process_keywords`:
normalize the keyword and add it to the set when it survived.  The
Python `set` is modelled as a list without duplicates; an exception
raised by `normalize_keyword` propagates. -/
def addKeyword (cfg : Config) (bw : List String) (acc : Except String (List String))
    (k : String) : Except String (List String) :=
  match acc with
  | .error e => .error e
  | .ok l =>
      match normalize_keyword k bw cfg with
      | .error e => .error e
      | .ok (some nk) => .ok (if nk ∈ l then l else nk :: l)
      | .ok none => .ok l

/-- The existing keywords folded in first by `process_keywords` when
`update_keywords` is set.  (The source's branch that would split a
string-valued existing-keywords field is not modelled: the canonical
record always carries keyword lists.) -/
def existingKeywordBase (cfg : Config) (bw : List String) (md : Metadata) :
    Except String (List String) :=
  if cfg.update_keywords then
    (md.keywords.getD []).foldl (addKeyword cfg bw) (.ok [])
  else .ok []

/-- `FileProcessor.process_keywords`: normalize and deduplicate the new
keywords over the existing base, and return `none` when nothing
survives. -/
def process_keywords (cfg : Config) (bw : List String) (md : Metadata)
    (new_keywords : List String) : Except String (Option (List String)) :=
  match new_keywords.foldl (addKeyword cfg bw) (existingKeywordBase cfg bw md) with
  | .error e => .error e
  | .ok l => .ok (if l.isEmpty then none else some l)

/-! ## Status state machine: `check_uuid` -/

/-- Observable result of one `check_uuid` call: the decision (`none`
is Skip, `some md` is Proceed with the updated record) together with
the record handed to `write_metadata` inside the orphan branch, when
that write was issued. -/
structure CheckResult where
  decision : Option Metadata
  orphanWrite : Option Metadata
deriving Repr, DecidableEq

/-- `FileProcessor.check_uuid` with its orphan write made observable.
`writeOk` is the boolean returned by `write_metadata` (always true
under dry-run, false on a write error; an exception during the write is
covered by `writeOk = false`, both paths return Skip), and `fresh` the
UUID drawn for a new file. -/
def check_uuid_full (cfg : Config) (md : Metadata) (writeOk : Bool) (fresh : String) :
    CheckResult :=
  let orphanCond := otruthy md.identifier && cfg.reprocess_orphans
      && ktruthy md.keywords && !otruthy md.status
  let md1 := if orphanCond then { md with status := some "success" } else md
  let ow := if orphanCond then some md1 else none
  if orphanCond && !(writeOk && !cfg.reprocess_all) then
    { decision := none, orphanWrite := ow }
  else if otruthy md.identifier then
    if !cfg.reprocess_all && md1.status == some "success" then
      { decision := none, orphanWrite := ow }
    else if cfg.reprocess_all || md1.status == some "retry" then
      { decision := some { md1 with status := none }, orphanWrite := ow }
    else if md1.status == some "failed" then
      if cfg.reprocess_failed || cfg.reprocess_all then
        { decision := some { md1 with status := none }, orphanWrite := ow }
      else { decision := none, orphanWrite := ow }
    else if !ktruthy md1.keywords then
      { decision := some { md1 with status := none }, orphanWrite := ow }
    else { decision := none, orphanWrite := ow }
  else
    { decision := some { md with identifier := some fresh }, orphanWrite := ow }

/-- The decision component of `check_uuid`, the function's Python
return value. -/
def check_uuid (cfg : Config) (md : Metadata) (writeOk : Bool) (fresh : String) :
    Option Metadata :=
  (check_uuid_full cfg md writeOk fresh).decision

/-! ## Metadata generation -/

/-- The dictionary produced by `clean_json` on a generation response,
restricted to the two fields `generate_metadata` reads.  `none` for
`keywords` models an absent `Keywords` key (Python `.get` returning
`None`). -/
structure GenData where
  description : Option String
  keywords : Option (List String)
deriving Repr, DecidableEq

/-- The caption computation of `generate_metadata`.  `.error` models
the `TypeError` raised by concatenating `None` into the
`<generated>`-wrapped update of an existing caption, which the
function's catch-all turns into a retry. -/
def genCaption (cfg : Config) (existing : Option String) (data : Option GenData)
    (detailedCap : Option String) : Except String (Option String) :=
  if !cfg.no_caption && cfg.detailed_caption then
    if otruthy existing && cfg.update_caption then
      match existing, detailedCap with
      | some e, some d => .ok (some (e ++ "<generated>" ++ d ++ "</generated>"))
      | _, _ => .error "TypeError"
    else .ok detailedCap
  else
    match data with
    | none => .ok none
    | some gd =>
        if !otruthy existing && !cfg.no_caption then .ok gd.description
        else if otruthy existing && cfg.update_caption then
          match existing, gd.description with
          | some e, some d => .ok (some (e ++ "<generated>" ++ d ++ "</generated>"))
          | _, _ => .error "TypeError"
        else if otruthy gd.description && !cfg.no_caption then .ok gd.description
        else .ok existing

/-- The keyword/status computation of `generate_metadata`: an absent or
empty `Keywords` value means status `retry`; otherwise status is set to
`success` before the keywords are normalized, so a normalization pass
that rejects everything still reports success. -/
def genKwStatus (cfg : Config) (bw : List String) (md : Metadata)
    (kw0 : Option (List String)) : Except String (Option (List String) × String) :=
  if ktruthy kw0 then
    match process_keywords cfg bw md (kw0.getD []) with
    | .error e => .error e
    | .ok pk => .ok (pk, "success")
  else .ok (kw0, "retry")

/-- The keyword extraction `data.get("Keywords")` guarded by the
`isinstance(data, dict)` checks of `generate_metadata`. -/
def genKw0 : Option GenData → Option (List String)
  | some gd => gd.keywords
  | none => none

/-- The body of `FileProcessor.generate_metadata` before its catch-all.
`data` is the `clean_json` result of the keyword generation call when it
was a dictionary (`none` otherwise), `detailedCap` the cleaned caption
text of the second call in detailed-caption mode, `fresh` the UUID drawn
when the record carries none. -/
def genMetadataE (cfg : Config) (bw : List String) (md : Metadata)
    (data : Option GenData) (detailedCap : Option String) (fresh : String) :
    Except String Metadata :=
  match genCaption cfg md.description data detailedCap with
  | .error e => .error e
  | .ok caption =>
      match genKwStatus cfg bw md (genKw0 data) with
      | .error e => .error e
      | .ok (kw, st) =>
          .ok { sourceFile := md.sourceFile
                identifier := some (md.identifier.getD fresh)
                status := some st
                description := caption
                keywords := kw }

/-- `FileProcessor.generate_metadata`: any exception inside the body is
caught and turns the original record into a retry. -/
def generate_metadata (cfg : Config) (bw : List String) (md : Metadata)
    (data : Option GenData) (detailedCap : Option String) (fresh : String) : Metadata :=
  match genMetadataE cfg bw md data detailedCap fresh with
  | .ok m => m
  | .error _ => { md with status := some "retry" }

/-! ## Orchestrator: `process_file` -/

/-- Observable outcome of one `process_file` run: the `check_uuid`
decision, how many `generate_metadata` attempts were made, the status
the file ends in, and the record handed to the final `write_metadata`
call (`none` when no final write was issued). -/
structure ProcOutcome where
  decision : Option Metadata
  genCalls : Nat
  finalStatus : Option String
  finalWrite : Option Metadata
deriving Repr, DecidableEq

/-- `FileProcessor.process_file` for a file that exists and has a
supported extension (those guard clauses, the image preprocessing, and
the progress/callback bookkeeping are elided; they do not affect the
decision, retry, or write logic).  `d1`/`cap1` feed the first
`generate_metadata` attempt and `d2`/`cap2` the retry. -/
def process_file (cfg : Config) (bw : List String) (md : Metadata) (writeOk : Bool)
    (fresh1 fresh2 : String) (d1 d2 : Option GenData) (cap1 cap2 : Option String) :
    ProcOutcome :=
  match check_uuid cfg md writeOk fresh1 with
  | none => { decision := none, genCalls := 0, finalStatus := none, finalWrite := none }
  | some md1 =>
      let u1 := generate_metadata cfg bw md1 d1 cap1 fresh2
      let un :=
        if !cfg.quick_fail && (u1.status == some "retry") then
          (generate_metadata cfg bw md1 d2 cap2 fresh2, 2)
        else (u1, 1)
      if !(un.1.status == some "success") then
        { decision := some md1, genCalls := un.2, finalStatus := some "failed",
          finalWrite := if cfg.dry_run then none
                        else some { md1 with status := some "failed" } }
      else
        { decision := some md1, genCalls := un.2, finalStatus := un.1.status,
          finalWrite := if cfg.dry_run then none else some un.1 }

/-! ## Raw field reduction in `process_directory` -/

/-- A raw metadata value as returned by the exiftool batch read: either
a plain string or a list of strings. -/
inductive RawVal where
  | vstr (s : String)
  | vlist (l : List String)
deriving Repr, DecidableEq

/-- Python `keywords.extend(value)`: a list contributes its elements, a
string contributes its characters one by one. -/
def rawElems : RawVal → List String
  | .vstr s => s.toList.map (fun c => String.singleton c)
  | .vlist l => l

/-- Python truthiness of a raw value. -/
def rawTruthy : RawVal → Bool
  | .vstr s => !s.isEmpty
  | .vlist l => !l.isEmpty

/-- `FileProcessor.keyword_fields`. -/
def keyword_fields : List String :=
  ["Keywords", "IPTC:Keywords", "Composite:keywords", "Subject",
   "DC:Subject", "XMP:Subject", "XMP-dc:Subject"]

/-- `FileProcessor.caption_fields`.  The source omits a comma between
`"Composite:Caption"` and `"IPTC:Caption-Abstract"`, so Python
concatenates the two adjacent literals into the single entry kept
here. -/
def caption_fields : List String :=
  ["Description", "XMP:Description", "ImageDescription", "DC:Description",
   "EXIF:ImageDescription", "Composite:Description", "Caption", "IPTC:Caption",
   "Composite:CaptionIPTC:Caption-Abstract", "XMP-dc:Description",
   "PNG:Description"]

/-- `FileProcessor.identifier_fields`. -/
def identifier_fields : List String := ["Identifier", "XMP:Identifier"]

/-- `FileProcessor.status_fields`. -/
def status_fields : List String := ["Status", "XMP:Status"]

/-- The values `process_directory` has accumulated after its scan over
one file's raw field map. -/
structure Reduced where
  keywords : List String
  caption : Option RawVal
  status : Option RawVal
  identifier : Option RawVal
deriving Repr, DecidableEq

/-- One iteration of the `for key, value in metadata.items()` loop in
`process_directory`: keyword aliases are extended into the running
list, each scalar alias plainly overwrites the variable. -/
def reduceStep (acc : Reduced) (kv : String × RawVal) : Reduced :=
  let acc1 := if keyword_fields.contains kv.1 then
      { acc with keywords := acc.keywords ++ rawElems kv.2 } else acc
  let acc2 := if caption_fields.contains kv.1 then
      { acc1 with caption := some kv.2 } else acc1
  let acc3 := if identifier_fields.contains kv.1 then
      { acc2 with identifier := some kv.2 } else acc2
  if status_fields.contains kv.1 then { acc3 with status := some kv.2 } else acc3

/-- The reduction loop of `process_directory` over a raw field map,
taken as the association list of the Python dict in its iteration
order. -/
def reduceRawFieldMap (raw : List (String × RawVal)) : Reduced :=
  raw.foldl reduceStep { keywords := [], caption := none, status := none, identifier := none }

/-- Modelled from the spec's words, for comparison with the code: a
scalar concept takes the first non-empty value found when scanning the
alias names in their fixed priority order. -/
def reduceScalarSpec (fields : List String) (raw : List (String × RawVal)) :
    Option RawVal :=
  fields.findSome? (fun f =>
    (raw.lookup f).bind (fun v => if rawTruthy v then some v else none))

/-- The value of the last recognized alias field in the raw map's own
order: the characterization the code actually satisfies. -/
def lastAliasValue (fields : List String) (raw : List (String × RawVal)) :
    Option RawVal :=
  (raw.reverse.find? (fun kv => fields.contains kv.1)).map (fun kv => kv.2)

/-! ## Tolerant JSON extraction: `clean_json` -/

/-- JSON values, the universe `json.loads` produces. -/
inductive JV where
  | jnull
  | jbool (b : Bool)
  | jnum (n : Int)
  | jstr (s : String)
  | jarr (elems : List JV)
  | jobj (fields : List (String × JV))
deriving Repr

/-- The opening curly brace (written by code point to keep brace
characters out of the literals). -/
def lbrace : Char := Char.ofNat 123

/-- The closing curly brace. -/
def rbrace : Char := Char.ofNat 125

/-- Skip leading whitespace. -/
def skipWs (cs : List Char) : List Char :=
  cs.dropWhile (fun c => c.isWhitespace)

/-- Parse the body of a JSON string after its opening quote, handling
the escape sequences the development's inputs can contain. -/
def parseStringBody : Nat → List Char → Option (List Char × List Char)
  | 0, _ => none
  | _, [] => none
  | fuel + 1, c :: cs =>
      if c = '"' then some ([], cs)
      else if c = '\\' then
        match cs with
        | [] => none
        | e :: cs2 =>
            let dec : Option Char :=
              if e = '"' then some '"'
              else if e = '\\' then some '\\'
              else if e = '/' then some '/'
              else if e = 'n' then some '\n'
              else if e = 't' then some '\t'
              else none
            match dec with
            | some d => (parseStringBody fuel cs2).map (fun p => (d :: p.1, p.2))
            | none => none
      else (parseStringBody fuel cs).map (fun p => (c :: p.1, p.2))

/-- Digits of a non-negative integer literal. -/
def parseNatDigits (cs : List Char) : Option (Nat × List Char) :=
  let digits := cs.takeWhile (fun c => c.isDigit)
  if digits.isEmpty then none
  else some (digits.foldl (fun n c => n * 10 + (c.toNat - 48)) 0, cs.drop digits.length)

mutual

/-- Model of the JSON value grammar accepted by `json.loads`
(objects, arrays, strings, integers, booleans, null; floats are not
modelled, none of the analysed inputs contain them).  The fuel bounds
the recursion; `json_loads` supplies enough for any input. -/
def parseVal : Nat → List Char → Option (JV × List Char)
  | 0, _ => none
  | fuel + 1, cs =>
      match skipWs cs with
      | [] => none
      | c :: rest =>
          if c = '"' then
            (parseStringBody fuel rest).map (fun p => (JV.jstr (String.mk p.1), p.2))
          else if c = lbrace then
            (parseObjFields fuel rest true).map (fun p => (JV.jobj p.1, p.2))
          else if c = '[' then
            (parseArrElems fuel rest true).map (fun p => (JV.jarr p.1, p.2))
          else if c = 't' then
            if ['r', 'u', 'e'].isPrefixOf rest then some (JV.jbool true, rest.drop 3) else none
          else if c = 'f' then
            if ['a', 'l', 's', 'e'].isPrefixOf rest then some (JV.jbool false, rest.drop 4) else none
          else if c = 'n' then
            if ['u', 'l', 'l'].isPrefixOf rest then some (JV.jnull, rest.drop 3) else none
          else if c = '-' then
            (parseNatDigits rest).map (fun p => (JV.jnum (-(p.1 : Int)), p.2))
          else
            (parseNatDigits (c :: rest)).map (fun p => (JV.jnum (p.1 : Int), p.2))

/-- Elements of a JSON array after the opening bracket. -/
def parseArrElems : Nat → List Char → Bool → Option (List JV × List Char)
  | 0, _, _ => none
  | fuel + 1, cs, first =>
      match skipWs cs with
      | [] => none
      | c :: rest =>
          if first && c = ']' then some ([], rest)
          else
            match parseVal fuel (c :: rest) with
            | none => none
            | some (v, cs2) =>
                match skipWs cs2 with
                | ',' :: cs3 =>
                    (parseArrElems fuel cs3 false).map (fun p => (v :: p.1, p.2))
                | c2 :: cs3 => if c2 = ']' then some ([v], cs3) else none
                | [] => none

/-- Members of a JSON object after the opening brace. -/
def parseObjFields : Nat → List Char → Bool → Option (List (String × JV) × List Char)
  | 0, _, _ => none
  | fuel + 1, cs, first =>
      match skipWs cs with
      | [] => none
      | c :: rest =>
          if first && c = rbrace then some ([], rest)
          else if c = '"' then
            match parseStringBody fuel rest with
            | none => none
            | some (key, cs2) =>
                match skipWs cs2 with
                | ':' :: cs3 =>
                    match parseVal fuel cs3 with
                    | none => none
                    | some (v, cs4) =>
                        match skipWs cs4 with
                        | ',' :: cs5 =>
                            (parseObjFields fuel cs5 false).map
                              (fun p => ((String.mk key, v) :: p.1, p.2))
                        | c2 :: cs5 =>
                            if c2 = rbrace then some ([(String.mk key, v)], cs5) else none
                        | [] => none
                | _ => none
          else none

end

/-- Model of `json.loads`: parse one JSON value and require only
trailing whitespace after it. -/
def json_loads (s : String) : Option JV :=
  match parseVal (2 * s.length + 8) s.toList with
  | some (v, rest) => if (skipWs rest).isEmpty then some v else none
  | none => none

/-- Modelled boundary of the external `json_repair.repair_json`
library: on text that already parses as JSON it returns its argument
unchanged, which is the only behavior the development relies on; its
heuristic repairs of malformed text are not modelled (the argument is
likewise returned unchanged). -/
def rj (s : String) : String := s

/-- Depth-counting scan for the matching close of an already seen open
brace, accumulating the covered characters. -/
def scanDepth : List Char → Nat → List Char → Option (List Char)
  | [], _, _ => none
  | c :: cs, d, acc =>
      if c = rbrace then
        if d = 1 then some ((acc ++ [c]))
        else scanDepth cs (d - 1) (acc ++ [c])
      else if c = lbrace then scanDepth cs (d + 1) (acc ++ [c])
      else scanDepth cs d (acc ++ [c])

/-- Modelled from the spec: `first_json` from `llmii_utils` (source not
under `src/`) — "scan for the first balanced top-level JSON object
anywhere in the text".  Returns the substring from the first opening
brace through its matching closing brace; `none` models the exception
the helper raises when no balanced object exists. -/
def first_json (s : String) : Option String :=
  match s.toList.dropWhile (fun c => c ≠ lbrace) with
  | [] => none
  | c :: rest => (scanDepth rest 1 [c]).map String.mk

/-- Drop everything up to and including the first occurrence of `pat`. -/
def dropThroughFirst (pat : List Char) : List Char → Option (List Char)
  | [] => if pat.isEmpty then some [] else none
  | c :: cs =>
      if pat.isPrefixOf (c :: cs) then some ((c :: cs).drop pat.length)
      else dropThroughFirst pat cs

/-- The characters before the first occurrence of `pat`, or `none` when
`pat` does not occur. -/
def takeUntilPat (pat : List Char) : List Char → Option (List Char)
  | [] => if pat.isEmpty then some [] else none
  | c :: cs =>
      if pat.isPrefixOf (c :: cs) then some []
      else (takeUntilPat pat cs).map (fun l => c :: l)

/-- The fenced-code-block extraction at the top of `clean_json`:
`re.search` with pattern  ```json\s*(.*?)\s*```  under DOTALL, i.e. the
whitespace-trimmed text between the first  ```json  marker and the next
closing  ```  fence. -/
def extractFenced (s : String) : Option String :=
  match dropThroughFirst ("```json".toList) s.toList with
  | none => none
  | some after =>
      match takeUntilPat ("```".toList) after with
      | none => none
      | some content => some (trimStr (String.mk content))

/-- Dictionary lookup on the parsed object (later duplicate keys win,
as in a Python dict built by `json.loads`). -/
def dictGet (fields : List (String × JV)) (k : String) : Option JV :=
  ((fields.filter (fun kv => kv.1 == k)).getLast?).map (fun kv => kv.2)

/-- Python truthiness of a JSON value. -/
def jvTruthy : JV → Bool
  | .jnull => false
  | .jbool b => b
  | .jnum n => n != 0
  | .jstr s => !s.isEmpty
  | .jarr l => !l.isEmpty
  | .jobj l => !l.isEmpty

/-- `clean_json` from `src/llmii.py` on string input: the fenced block,
when present, replaces the working text before any parse attempt; then
direct parse with repair, then the first balanced object with repair,
then the brace-wrapped last resort accepted only when it is an object
with a truthy `Keywords` entry. -/
def clean_json (s : String) : Option JV :=
  let data := match extractFenced s with
    | some inner => inner
    | none => s
  match json_loads (rj data) with
  | some v => some v
  | none =>
      match (first_json data).bind (fun fj => json_loads (rj fj)) with
      | some v => some v
      | none =>
          match (first_json (rj (String.singleton lbrace ++ data ++ String.singleton rbrace))).bind json_loads with
          | some (JV.jobj fields) =>
              if jvTruthy ((dictGet fields "Keywords").getD JV.jnull) then
                some (JV.jobj fields)
              else none
          | _ => none

/-- The whole-text parse stage. -/
def stage_direct (t : String) : Option JV := json_loads (rj t)

/-- The first-balanced-object stage. -/
def stage_first_obj (t : String) : Option JV :=
  (first_json t).bind (fun fj => json_loads (rj fj))

/-- The brace-wrapping last-resort stage, accepted only for an object
with a truthy `Keywords` entry. -/
def stage_wrap (t : String) : Option JV :=
  match (first_json (rj (String.singleton lbrace ++ t ++ String.singleton rbrace))).bind json_loads with
  | some (JV.jobj fields) =>
      if jvTruthy ((dictGet fields "Keywords").getD JV.jnull) then
        some (JV.jobj fields)
      else none
  | _ => none

/-- The working text every parse stage of `clean_json` operates on:
the fenced block's contents when a fence is present, the whole text
otherwise. -/
def preprocessed (s : String) : String :=
  match extractFenced s with
  | some inner => inner
  | none => s

/-- The parse stages of `clean_json` in the order the code tries them
after the fenced-block preprocessing. -/
def cleanStages : List (String → Option JV) :=
  [stage_direct, stage_first_obj, stage_wrap]

/-- The stage order the claim asserts, written from its words for
comparison with the code: whole text first, fenced block second, first
balanced object third, brace-wrap last. -/
def clean_json_claim_order (s : String) : Option JV :=
  match stage_direct s with
  | some v => some v
  | none =>
      match (extractFenced s).bind (fun inner => json_loads (rj inner)) with
      | some v => some v
      | none =>
          match stage_first_obj s with
          | some v => some v
          | none => stage_wrap s

/-! ## Shared concrete instances -/

/-- Whether a generation result carries a truthy `Keywords` value, the
condition separating success from retry in `generate_metadata`. -/
def hasParsableKeywords : Option GenData → Bool
  | some gd => ktruthy gd.keywords
  | none => false

/-- A record of a file already tagged successfully. -/
def mdDone : Metadata :=
  { sourceFile := "/pics/a.jpg", identifier := some "id-1",
    status := some "success", description := some "a cat", keywords := some ["cat"] }

/-- An orphan record: identifier and keywords present, no status. -/
def mdOrphan : Metadata :=
  { sourceFile := "/pics/b.jpg", identifier := some "id-2",
    status := none, description := none, keywords := some ["old"] }

/-- A fresh, untagged file's record. -/
def mdFresh : Metadata :=
  { sourceFile := "/pics/c.jpg", identifier := none,
    status := none, description := none, keywords := none }

/-- The fresh file's record after `check_uuid` assigned it the drawn
identifier "f1". -/
def mdFreshTagged : Metadata := { mdFresh with identifier := some "f1" }

/-- The default configuration with a full reprocess requested. -/
def cfgReprocessAll : Config := { Config.default with reprocess_all := true }

/-- The default configuration with quick fail enabled. -/
def cfgQuickFail : Config := { Config.default with quick_fail := true }

/-- A raw field map carrying two recognized caption aliases, in this
order. -/
def rawTwoCaptions : List (String × RawVal) :=
  [("Description", RawVal.vstr "first caption"),
   ("XMP:Description", RawVal.vstr "second caption")]

/-- A generation response that is itself valid JSON yet contains a
fenced json block inside its `Description` string. -/
def fencedInsideJson : String :=
  "\x7b\"Description\": \"a ```json \x7b\x7d ``` b\", \"Keywords\": [\"whole\"]\x7d"

/-! ## Helper lemmas -/

theorem splitCharAux_ne_nil (sep : Char) (cs : List Char) :
    ∀ acc, splitCharAux sep cs acc ≠ [] := by
  induction cs with
  | nil => intro acc; simp [splitCharAux]
  | cons c cs ih =>
      intro acc
      unfold splitCharAux
      by_cases h : c = sep
      · rw [if_pos h]; simp
      · rw [if_neg h]; exact ih _

theorem splitChar_ne_nil (sep : Char) (s : String) : splitChar sep s ≠ [] :=
  splitCharAux_ne_nil sep s.toList []

theorem buildWords_cons_ne_nil (t : String) (ts : List String) (ws : List String)
    (h : buildWords (t :: ts) = some ws) : ws ≠ [] := by
  unfold buildWords at h
  by_cases hh : t.toList.contains '-'
  · rw [if_pos hh] at h
    by_cases hok : hyphenOk t
    · rw [if_pos hok] at h
      cases hb : buildWords ts with
      | none => rw [hb] at h; exact Option.noConfusion h
      | some ws1 =>
          rw [hb] at h
          simp only [Option.map_some'] at h
          injection h with h2
          subst h2
          simp [splitChar_ne_nil]
    · rw [if_neg hok] at h; exact Option.noConfusion h
  · rw [if_neg hh] at h
    cases hb : buildWords ts with
    | none => rw [hb] at h; exact Option.noConfusion h
    | some ws1 =>
        rw [hb] at h
        simp only [Option.map_some'] at h
        injection h with h2
        subst h2
        simp

theorem buildWords_eq_nil (ts : List String) (h : buildWords ts = some []) : ts = [] := by
  cases ts with
  | nil => rfl
  | cons t ts2 => exact absurd rfl (buildWords_cons_ne_nil t ts2 [] h)

theorem normalizeWords_cons_ne_error (bw : List String) (cfg : Config)
    (tokens : List String) (w0 : String) (ws : List String) (e : String) :
    normalizeWords bw cfg tokens (w0 :: ws) ≠ .error e := by
  intro h
  unfold normalizeWords at h
  simp only [List.head?_cons] at h
  split at h
  · exact Except.noConfusion h
  · split at h
    · exact Except.noConfusion h
    · split at h
      · exact Except.noConfusion h
      · split at h
        · exact Except.noConfusion h
        · exact Except.noConfusion h

theorem normalizeClean_error_eq_nil (bw : List String) (cfg : Config)
    (tokens : List String) (e : String)
    (h : normalizeClean bw cfg tokens = .error e) : tokens = [] := by
  unfold normalizeClean at h
  cases hb : buildWords tokens with
  | none => rw [hb] at h; exact Except.noConfusion h
  | some words =>
      rw [hb] at h
      cases words with
      | nil => exact buildWords_eq_nil _ hb
      | cons w0 ws => exact absurd h (normalizeWords_cons_ne_error bw cfg tokens w0 ws e)

theorem addKeyword_foldl_error (cfg : Config) (bw : List String) (ks : List String) (e : String) :
    ks.foldl (addKeyword cfg bw) (.error e) = .error e := by
  induction ks with
  | nil => rfl
  | cons k ks ih => simp only [List.foldl_cons]; exact ih

theorem addKeyword_foldl_nodup (cfg : Config) (bw : List String) :
    ∀ (ks : List String) (acc l : List String),
      ks.foldl (addKeyword cfg bw) (.ok acc) = .ok l → acc.Nodup → l.Nodup := by
  intro ks
  induction ks with
  | nil =>
      intro acc l h hn
      injection h with h2
      subst h2
      exact hn
  | cons k ks ih =>
      intro acc l h hn
      simp only [List.foldl_cons] at h
      cases hno : normalize_keyword k bw cfg with
      | error e =>
          have hstep : addKeyword cfg bw (.ok acc) k = .error e := by
            unfold addKeyword; rw [hno]
          rw [hstep, addKeyword_foldl_error] at h
          exact Except.noConfusion h
      | ok onk =>
          cases onk with
          | none =>
              have hstep : addKeyword cfg bw (.ok acc) k = .ok acc := by
                unfold addKeyword; rw [hno]
              rw [hstep] at h
              exact ih acc l h hn
          | some nk =>
              have hstep : addKeyword cfg bw (.ok acc) k =
                  .ok (if nk ∈ acc then acc else nk :: acc) := by
                unfold addKeyword; rw [hno]
              rw [hstep] at h
              refine ih _ l h ?_
              by_cases hm : nk ∈ acc
              · rw [if_pos hm]; exact hn
              · rw [if_neg hm]; exact List.nodup_cons.mpr ⟨hm, hn⟩

theorem existingKeywordBase_ok_nodup (cfg : Config) (bw : List String) (md : Metadata)
    (acc : List String) (h : existingKeywordBase cfg bw md = .ok acc) : acc.Nodup := by
  unfold existingKeywordBase at h
  split at h
  · exact addKeyword_foldl_nodup cfg bw _ [] acc h List.nodup_nil
  · injection h with h2
    subst h2
    exact List.nodup_nil

theorem genKwStatus_of_not_truthy (cfg : Config) (bw : List String) (md : Metadata)
    (kw0 : Option (List String)) (h : ktruthy kw0 = false) :
    genKwStatus cfg bw md kw0 = .ok (kw0, "retry") := by
  unfold genKwStatus
  rw [h]
  simp

theorem generate_metadata_retry_of_no_keywords (cfg : Config) (bw : List String)
    (md : Metadata) (d : Option GenData) (cap : Option String) (f : String)
    (hnk : hasParsableKeywords d = false) :
    (generate_metadata cfg bw md d cap f).status = some "retry" := by
  have hk0 : ktruthy (genKw0 d) = false := by
    cases d with
    | none => rfl
    | some gd => exact hnk
  unfold generate_metadata
  cases hg : genMetadataE cfg bw md d cap f with
  | error e => rfl
  | ok m =>
      unfold genMetadataE at hg
      cases hc : genCaption cfg md.description d cap with
      | error e => rw [hc] at hg; exact Except.noConfusion hg
      | ok c =>
          rw [hc] at hg
          simp only [] at hg
          rw [genKwStatus_of_not_truthy cfg bw md (genKw0 d) hk0] at hg
          injection hg with h2
          subst h2
          rfl

theorem genCaption_default_ok (ex : Option String) (gd : GenData) (dc : Option String) :
    ∃ c, genCaption Config.default ex (some gd) dc = .ok c := by
  unfold genCaption
  rw [if_neg (by decide)]
  simp only []
  by_cases h1 : (!otruthy ex && !Config.default.no_caption) = true
  · rw [if_pos h1]; exact ⟨_, rfl⟩
  · rw [if_neg h1]
    rw [if_neg (by simp [show Config.default.update_caption = false from rfl])]
    by_cases h2 : (otruthy gd.description && !Config.default.no_caption) = true
    · rw [if_pos h2]; exact ⟨_, rfl⟩
    · rw [if_neg h2]; exact ⟨_, rfl⟩

theorem genMetadataE_ok_identifier (cfg : Config) (bw : List String) (md : Metadata)
    (data : Option GenData) (dc : Option String) (f : String) (m : Metadata)
    (h : genMetadataE cfg bw md data dc f = .ok m) :
    m.identifier = some (md.identifier.getD f) := by
  unfold genMetadataE at h
  cases hc : genCaption cfg md.description data dc with
  | error e => rw [hc] at h; exact Except.noConfusion h
  | ok cap =>
      rw [hc] at h
      simp only [] at h
      cases hk : genKwStatus cfg bw md (genKw0 data) with
      | error e => rw [hk] at h; exact Except.noConfusion h
      | ok p =>
          rw [hk] at h
          injection h with h2
          subst h2
          rfl

theorem opt_match_id {α} (x : Option α) :
    (match x with | some v => some v | none => none) = x := by
  cases x <;> rfl

theorem find?_append_cases {α} (p : α → Bool) (l1 l2 : List α) :
    (l1 ++ l2).find? p =
      match l1.find? p with
      | some x => some x
      | none => l2.find? p := by
  induction l1 with
  | nil => rfl
  | cons a t ih =>
      by_cases hp : p a
      · simp [List.find?_cons_of_pos, hp]
      · simp only [List.cons_append, List.find?_cons_of_neg _ hp, ih]

theorem reduceStep_caption (acc : Reduced) (kv : String × RawVal) :
    (reduceStep acc kv).caption =
      if caption_fields.contains kv.1 then some kv.2 else acc.caption := by
  unfold reduceStep
  by_cases h2 : kv.1 ∈ caption_fields <;>
    by_cases h1 : kv.1 ∈ keyword_fields <;>
    by_cases h3 : kv.1 ∈ identifier_fields <;>
    by_cases h4 : kv.1 ∈ status_fields <;>
    simp [h1, h2, h3, h4]

theorem reduceStep_status (acc : Reduced) (kv : String × RawVal) :
    (reduceStep acc kv).status =
      if status_fields.contains kv.1 then some kv.2 else acc.status := by
  unfold reduceStep
  by_cases h2 : kv.1 ∈ caption_fields <;>
    by_cases h1 : kv.1 ∈ keyword_fields <;>
    by_cases h3 : kv.1 ∈ identifier_fields <;>
    by_cases h4 : kv.1 ∈ status_fields <;>
    simp [h1, h2, h3, h4]

theorem reduceStep_identifier (acc : Reduced) (kv : String × RawVal) :
    (reduceStep acc kv).identifier =
      if identifier_fields.contains kv.1 then some kv.2 else acc.identifier := by
  unfold reduceStep
  by_cases h2 : kv.1 ∈ caption_fields <;>
    by_cases h1 : kv.1 ∈ keyword_fields <;>
    by_cases h3 : kv.1 ∈ identifier_fields <;>
    by_cases h4 : kv.1 ∈ status_fields <;>
    simp [h1, h2, h3, h4]

theorem reduceStep_keywords (acc : Reduced) (kv : String × RawVal) :
    (reduceStep acc kv).keywords =
      acc.keywords ++ (if keyword_fields.contains kv.1 then rawElems kv.2 else []) := by
  unfold reduceStep
  by_cases h2 : kv.1 ∈ caption_fields <;>
    by_cases h1 : kv.1 ∈ keyword_fields <;>
    by_cases h3 : kv.1 ∈ identifier_fields <;>
    by_cases h4 : kv.1 ∈ status_fields <;>
    simp [h1, h2, h3, h4]

theorem foldl_reduceStep_scalar (proj : Reduced → Option RawVal) (fields : List String)
    (hstep : ∀ acc kv, proj (reduceStep acc kv) =
        if fields.contains kv.1 then some kv.2 else proj acc)
    (raw : List (String × RawVal)) :
    ∀ acc, proj (raw.foldl reduceStep acc) =
      match raw.reverse.find? (fun kv => fields.contains kv.1) with
      | some kv => some kv.2
      | none => proj acc := by
  induction raw with
  | nil => intro acc; rfl
  | cons kv t ih =>
      intro acc
      simp only [List.foldl_cons, List.reverse_cons]
      rw [ih, find?_append_cases]
      cases hf : t.reverse.find? (fun kv2 => fields.contains kv2.1) with
      | some kv2 => rfl
      | none =>
          simp only []
          have hfind : List.find? (fun kv2 => fields.contains kv2.1) [kv] =
              if fields.contains kv.1 then some kv else none := by
            by_cases hp : kv.1 ∈ fields <;> simp [List.find?_cons, hp]
          rw [hstep, hfind]
          by_cases hp : kv.1 ∈ fields <;> simp [hp]

theorem foldl_reduceStep_keywords (raw : List (String × RawVal)) :
    ∀ acc, (raw.foldl reduceStep acc).keywords =
      acc.keywords ++
        (raw.filter (fun kv => keyword_fields.contains kv.1)).flatMap
          (fun kv => rawElems kv.2) := by
  induction raw with
  | nil => intro acc; simp
  | cons kv t ih =>
      intro acc
      simp only [List.foldl_cons]
      rw [ih, reduceStep_keywords]
      by_cases hp : kv.1 ∈ keyword_fields
      · simp [List.filter_cons, hp, List.append_assoc]
      · simp [List.filter_cons, hp]

/-! ## Claim theorems -/

/-- C5 counterexample: on a response that is itself a valid JSON
object but mentions a fenced json block inside a string value, the
claimed stage order (whole-text parse first) would return the full
object, while `clean_json` extracts the fenced block before any parse
attempt and returns the empty object found inside it. -/
theorem claim5_counterexample :
    clean_json fencedInsideJson = some (JV.jobj [])
    ∧ clean_json_claim_order fencedInsideJson =
        some (JV.jobj [("Description", JV.jstr "a ```json \x7b\x7d ``` b"),
                       ("Keywords", JV.jarr [JV.jstr "whole"])])
    ∧ clean_json fencedInsideJson ≠ clean_json_claim_order fencedInsideJson := by
  refine ⟨by rfl, by rfl, ?_⟩
  intro h
  rw [show clean_json fencedInsideJson = some (JV.jobj []) from rfl] at h
  rw [show clean_json_claim_order fencedInsideJson =
      some (JV.jobj [("Description", JV.jstr "a ```json \x7b\x7d ``` b"),
                     ("Keywords", JV.jarr [JV.jstr "whole"])]) from rfl] at h
  simp at h

/-- C5 amended: `clean_json` first runs the fenced-block extraction as
a preprocessing step — when a fence is present every stage operates on
the block's contents — and then tries the stages in order (direct
parse with repair, first balanced object with repair, brace-wrap
accepted only with a truthy Keywords entry), the first success
short-circuiting the rest. -/
theorem claim5_fence_preprocessing_then_ordered_stages (s : String) :
    clean_json s = cleanStages.findSome? (fun st => st (preprocessed s)) := by
  unfold clean_json cleanStages preprocessed stage_direct stage_first_obj stage_wrap
  cases hfe : extractFenced s with
  | none =>
      simp only [List.findSome?]
      cases hj : json_loads (rj s) with
      | some v => rfl
      | none =>
          simp only [hj]
          cases hfo : (first_json s).bind (fun fj => json_loads (rj fj)) with
          | some v => rfl
          | none =>
              simp only [hfo]
              exact (opt_match_id _).symm
  | some inner =>
      simp only [List.findSome?]
      cases hj : json_loads (rj inner) with
      | some v => rfl
      | none =>
          simp only [hj]
          cases hfo : (first_json inner).bind (fun fj => json_loads (rj fj)) with
          | some v => rfl
          | none =>
              simp only [hfo]
              exact (opt_match_id _).symm

/-- C4 counterexample: a raw field map carrying the caption aliases
`Description` then `XMP:Description` in its own order.  The spec's
reduction rule (first non-empty value in the fixed alias priority
order) picks the first, the code's single overwriting scan keeps the
last, so the claim fails at this input. -/
theorem claim4_counterexample :
    (reduceRawFieldMap rawTwoCaptions).caption = some (RawVal.vstr "second caption")
    ∧ reduceScalarSpec caption_fields rawTwoCaptions = some (RawVal.vstr "first caption")
    ∧ (reduceRawFieldMap rawTwoCaptions).caption ≠
        reduceScalarSpec caption_fields rawTwoCaptions := by
  exact ⟨by decide, by decide, by decide⟩

/-- C4 amended: in the reduction of a raw field map, each scalar
concept (Description, Status, Identifier) takes the value of the last
recognized alias field in the raw map's own field order — not the
first non-empty value in alias priority order — and the Keywords of
every recognized alias are concatenated in encounter order. -/
theorem claim4_last_alias_wins (raw : List (String × RawVal)) :
    (reduceRawFieldMap raw).caption = lastAliasValue caption_fields raw
    ∧ (reduceRawFieldMap raw).status = lastAliasValue status_fields raw
    ∧ (reduceRawFieldMap raw).identifier = lastAliasValue identifier_fields raw
    ∧ (reduceRawFieldMap raw).keywords =
        (raw.filter (fun kv => keyword_fields.contains kv.1)).flatMap
          (fun kv => rawElems kv.2) := by
  refine ⟨?_, ?_, ?_, ?_⟩
  · unfold reduceRawFieldMap lastAliasValue
    rw [foldl_reduceStep_scalar Reduced.caption caption_fields reduceStep_caption]
    cases raw.reverse.find? (fun kv => caption_fields.contains kv.1) <;> rfl
  · unfold reduceRawFieldMap lastAliasValue
    rw [foldl_reduceStep_scalar Reduced.status status_fields reduceStep_status]
    cases raw.reverse.find? (fun kv => status_fields.contains kv.1) <;> rfl
  · unfold reduceRawFieldMap lastAliasValue
    rw [foldl_reduceStep_scalar Reduced.identifier identifier_fields reduceStep_identifier]
    cases raw.reverse.find? (fun kv => identifier_fields.contains kv.1) <;> rfl
  · unfold reduceRawFieldMap
    rw [foldl_reduceStep_keywords]
    rfl

/-- C1: a record with a truthy Identifier and Status "success" is
skipped by `check_uuid` — and then `process_file` makes zero generation
calls and issues no write — unless a full reprocess is requested, in
which case the decision is Proceed with the Status cleared. -/
theorem claim1_success_skipped_unless_reprocess_all
    (cfg : Config) (bw : List String) (md : Metadata) (w : Bool)
    (f1 f2 : String) (d1 d2 : Option GenData) (c1 c2 : Option String)
    (hid : otruthy md.identifier = true) (hst : md.status = some "success") :
    (cfg.reprocess_all = false →
        check_uuid cfg md w f1 = none
        ∧ process_file cfg bw md w f1 f2 d1 d2 c1 c2 =
            { decision := none, genCalls := 0, finalStatus := none, finalWrite := none })
    ∧ (cfg.reprocess_all = true →
        check_uuid cfg md w f1 = some { md with status := none }) := by
  have hsucc : otruthy (some "success") = true := by decide
  constructor
  · intro hra
    have hchk : check_uuid cfg md w f1 = none := by
      unfold check_uuid check_uuid_full
      simp [hid, hst, hra, hsucc]
    refine ⟨hchk, ?_⟩
    unfold process_file
    rw [hchk]
  · intro hra
    unfold check_uuid check_uuid_full
    simp [hid, hst, hra, hsucc]

/-- C1 witness: the theorem applied to a concrete tagged record under
the default configuration and under a requested full reprocess. -/
theorem claim1_success_skipped_unless_reprocess_all_witness :
    check_uuid Config.default mdDone true "w1" = none
    ∧ process_file Config.default banned_words mdDone true "w1" "w2" none none none none =
        { decision := none, genCalls := 0, finalStatus := none, finalWrite := none }
    ∧ check_uuid cfgReprocessAll mdDone true "w1" = some { mdDone with status := none } := by
  have h1 := claim1_success_skipped_unless_reprocess_all Config.default banned_words
    mdDone true "w1" "w2" none none none none (by decide) (by decide)
  have h2 := claim1_success_skipped_unless_reprocess_all cfgReprocessAll banned_words
    mdDone true "w1" "w2" none none none none (by decide) (by decide)
  exact ⟨(h1.1 rfl).1, (h1.1 rfl).2, h2.2 rfl⟩

/-- C3: the recorded behavior of `check_uuid` on an orphan record with
orphan repair enabled and the metadata write succeeding.  Without a
full reprocess the code writes Status success and Skips, as the claim
says; with `reprocess_all` additionally requested the code still
returns Skip (after writing Status success and logging a spurious
write error), instead of proceeding to regeneration as the claim and
the spec state. -/
theorem claim3_orphan_repair_code_behavior :
    check_uuid_full Config.default mdOrphan true "fresh-4" =
      { decision := none, orphanWrite := some { mdOrphan with status := some "success" } }
    ∧ check_uuid_full cfgReprocessAll mdOrphan true "fresh-4" =
      { decision := none, orphanWrite := some { mdOrphan with status := some "success" } } := by
  exact ⟨by decide, by decide⟩

/-- C8: an assigned Identifier never changes — `check_uuid` keeps a
truthy Identifier on every Proceed decision (it draws a fresh one only
when none is present), and `generate_metadata` carries an existing
Identifier through unchanged on both its success and its catch-all
paths, for every configuration. -/
theorem claim8_identifier_never_changes :
    (∀ (cfg : Config) (md : Metadata) (w : Bool) (f : String) (md2 : Metadata),
        otruthy md.identifier = true → check_uuid cfg md w f = some md2 →
        md2.identifier = md.identifier)
    ∧ (∀ (cfg : Config) (bw : List String) (md : Metadata) (data : Option GenData)
          (dc : Option String) (f : String) (i : String),
        md.identifier = some i →
        (generate_metadata cfg bw md data dc f).identifier = some i) := by
  constructor
  · intro cfg md w f md2 hid h
    unfold check_uuid check_uuid_full at h
    simp only [hid] at h
    repeat' split at h
    all_goals simp at h
    all_goals try subst h
    all_goals first | rfl | simp_all
  · intro cfg bw md data dc f i hi
    unfold generate_metadata
    cases hg : genMetadataE cfg bw md data dc f with
    | error e => simp [hi]
    | ok m => rw [genMetadataE_ok_identifier cfg bw md data dc f m hg, hi]; rfl

/-- C2: when the first generation attempt yields no parsable Keywords,
`process_file` makes exactly one additional attempt without quick fail
and exactly zero with it; when no attempt yields Keywords the file ends
in Status "failed", written back through the metadata write except
under dry run. -/
theorem claim2_retry_once_then_fail
    (cfg : Config) (bw : List String) (md md1 : Metadata) (w : Bool)
    (f1 f2 : String) (d1 d2 : Option GenData) (c1 c2 : Option String)
    (hchk : check_uuid cfg md w f1 = some md1)
    (hnk1 : hasParsableKeywords d1 = false) :
    (cfg.quick_fail = true →
        (process_file cfg bw md w f1 f2 d1 d2 c1 c2).genCalls = 1)
    ∧ (cfg.quick_fail = false →
        (process_file cfg bw md w f1 f2 d1 d2 c1 c2).genCalls = 2)
    ∧ (hasParsableKeywords d2 = false →
        (process_file cfg bw md w f1 f2 d1 d2 c1 c2).finalStatus = some "failed"
        ∧ (cfg.dry_run = false →
            (process_file cfg bw md w f1 f2 d1 d2 c1 c2).finalWrite =
              some { md1 with status := some "failed" })
        ∧ (cfg.dry_run = true →
            (process_file cfg bw md w f1 f2 d1 d2 c1 c2).finalWrite = none)) := by
  have hs1 := generate_metadata_retry_of_no_keywords cfg bw md1 d1 c1 f2 hnk1
  refine ⟨?_, ?_, ?_⟩
  · intro hqf
    unfold process_file
    rw [hchk]
    simp [hs1, hqf]
  · intro hqf
    unfold process_file
    rw [hchk]
    simp [hs1, hqf]
    split <;> rfl
  · intro hnk2
    have hs2 := generate_metadata_retry_of_no_keywords cfg bw md1 d2 c2 f2 hnk2
    by_cases hqf : cfg.quick_fail = true
    · refine ⟨?_, ?_, ?_⟩
      · unfold process_file; rw [hchk]; simp [hs1, hs2, hqf]
      · intro hdr; unfold process_file; rw [hchk]; simp [hs1, hs2, hqf, hdr]
      · intro hdr; unfold process_file; rw [hchk]; simp [hs1, hs2, hqf, hdr]
    · rw [Bool.not_eq_true] at hqf
      refine ⟨?_, ?_, ?_⟩
      · unfold process_file; rw [hchk]; simp [hs1, hs2, hqf]
      · intro hdr; unfold process_file; rw [hchk]; simp [hs1, hs2, hqf, hdr]
      · intro hdr; unfold process_file; rw [hchk]; simp [hs1, hs2, hqf, hdr]

/-- C2 witness: a fresh file whose two generation responses carry no
keywords makes two attempts and is written back failed under the
default configuration, and makes a single attempt under quick fail. -/
theorem claim2_retry_once_then_fail_witness :
    (process_file Config.default banned_words mdFresh true "f1" "f2"
        none none none none).genCalls = 2
    ∧ (process_file cfgQuickFail banned_words mdFresh true "f1" "f2"
        none none none none).genCalls = 1
    ∧ (process_file Config.default banned_words mdFresh true "f1" "f2"
        none none none none).finalStatus = some "failed"
    ∧ (process_file Config.default banned_words mdFresh true "f1" "f2"
        none none none none).finalWrite =
        some { mdFreshTagged with status := some "failed" } := by
  have h1 := claim2_retry_once_then_fail Config.default banned_words mdFresh
    mdFreshTagged true "f1" "f2" none none none none (by decide) rfl
  have h2 := claim2_retry_once_then_fail cfgQuickFail banned_words mdFresh
    mdFreshTagged true "f1" "f2" none none none none (by decide) rfl
  exact ⟨h1.2.1 rfl, h2.1 rfl, (h1.2.2 rfl).1, (h1.2.2 rfl).2.1 rfl⟩

/-- C6: the keyword set built by `process_keywords` never contains a
duplicate entry, for any configuration and input list, because entries
are keyed by exact string equality after normalization; in particular
"Blue Sky" and "BLUESKY " both normalize to "blue sky" under the
default configuration and contribute a single entry. -/
theorem claim6_no_duplicate_keywords :
    (∀ (cfg : Config) (bw : List String) (md : Metadata) (ks l : List String),
        process_keywords cfg bw md ks = .ok (some l) → l.Nodup)
    ∧ process_keywords Config.default banned_words mdFresh ["Blue Sky", "BLUESKY "] =
        .ok (some ["blue sky"]) := by
  constructor
  · intro cfg bw md ks l h
    unfold process_keywords at h
    cases hbase : existingKeywordBase cfg bw md with
    | error e =>
        rw [hbase, addKeyword_foldl_error] at h
        exact Except.noConfusion h
    | ok acc =>
        rw [hbase] at h
        cases hf : ks.foldl (addKeyword cfg bw) (.ok acc) with
        | error e => rw [hf] at h; exact Except.noConfusion h
        | ok l2 =>
            rw [hf] at h
            simp only [] at h
            have hl2 := addKeyword_foldl_nodup cfg bw ks acc l2 hf
              (existingKeywordBase_ok_nodup cfg bw md acc hbase)
            by_cases he : l2.isEmpty
            · rw [if_pos he] at h
              injection h with h2
              exact Option.noConfusion h2
            · rw [if_neg he] at h
              injection h with h2
              injection h2 with h3
              subst h3
              exact hl2
  · decide

/-- C6 witness: the general part applied to the concrete variant pair,
whose deduplicated keyword set is the single entry "blue sky". -/
theorem claim6_no_duplicate_keywords_witness : (["blue sky"] : List String).Nodup :=
  claim6_no_duplicate_keywords.1 Config.default banned_words mdFresh
    ["Blue Sky", "BLUESKY "] ["blue sky"] (by decide)

/-- C9: under the default configuration, when the generator returns a
non-empty Keywords list but normalization rejects every entry
(`process_keywords` returns no survivor), `generate_metadata` still
sets Status "success" with no keyword value, and `process_file` makes
no further attempt and persists that record. -/
theorem claim9_all_rejected_still_success
    (bw : List String) (md md1 : Metadata) (w : Bool) (f1 f2 : String)
    (desc : Option String) (ks : List String) (d2 : Option GenData) (c1 c2 : Option String)
    (hchk : check_uuid Config.default md w f1 = some md1)
    (hks : ks ≠ [])
    (hrej : process_keywords Config.default bw md1 ks = .ok none) :
    (generate_metadata Config.default bw md1 (some ⟨desc, some ks⟩) c1 f2).status
        = some "success"
    ∧ (generate_metadata Config.default bw md1 (some ⟨desc, some ks⟩) c1 f2).keywords
        = none
    ∧ process_file Config.default bw md w f1 f2 (some ⟨desc, some ks⟩) d2 c1 c2 =
        { decision := some md1, genCalls := 1, finalStatus := some "success",
          finalWrite := some (generate_metadata Config.default bw md1
            (some ⟨desc, some ks⟩) c1 f2) } := by
  obtain ⟨c, hc⟩ := genCaption_default_ok md1.description ⟨desc, some ks⟩ c1
  have hkt : ktruthy (some ks) = true := by
    cases ks with
    | nil => exact absurd rfl hks
    | cons a l => rfl
  have hkw : genKwStatus Config.default bw md1 (genKw0 (some ⟨desc, some ks⟩)) =
      .ok (none, "success") := by
    show genKwStatus Config.default bw md1 (some ks) = _
    unfold genKwStatus
    rw [hkt]
    simp only [if_pos rfl, Option.getD_some]
    rw [hrej]
    simp
  have hu : generate_metadata Config.default bw md1 (some ⟨desc, some ks⟩) c1 f2 =
      { sourceFile := md1.sourceFile, identifier := some (md1.identifier.getD f2),
        status := some "success", description := c, keywords := none } := by
    unfold generate_metadata genMetadataE
    rw [hc]
    simp only []
    rw [hkw]
  refine ⟨by rw [hu], by rw [hu], ?_⟩
  unfold process_file
  rw [hchk]
  simp [hu, show Config.default.quick_fail = false by rfl,
    show Config.default.dry_run = false by rfl]

/-- C9 witness: a generation result whose only keyword "no" is on the
banned list still yields Status "success" with no keyword value. -/
theorem claim9_all_rejected_still_success_witness :
    (generate_metadata Config.default banned_words mdFreshTagged
        (some { description := some "a cat", keywords := some ["no"] }) none "f2").status
      = some "success"
    ∧ (generate_metadata Config.default banned_words mdFreshTagged
        (some { description := some "a cat", keywords := some ["no"] }) none "f2").keywords
      = none := by
  have h := claim9_all_rejected_still_success banned_words mdFresh mdFreshTagged
    true "f1" "f2" (some "a cat") ["no"] none none none (by decide) (by decide) (by decide)
  exact ⟨h.1, h.2.1⟩

/-- C8 witness: the theorem applied to a tagged record proceeding
under a full reprocess, and to a concrete `generate_metadata` call. -/
theorem claim8_identifier_never_changes_witness :
    ({ mdDone with status := none } : Metadata).identifier = mdDone.identifier
    ∧ (generate_metadata Config.default banned_words mdDone none none "fresh-9").identifier
        = some "id-1" := by
  refine ⟨?_, ?_⟩
  · exact claim8_identifier_never_changes.1 cfgReprocessAll mdDone true "w3"
      { mdDone with status := none } (by decide) (by decide)
  · exact claim8_identifier_never_changes.2 Config.default banned_words mdDone
      none none "fresh-9" "id-1" rfl

/-- C7: under the default configuration, `normalize_keyword` matches
the spec's example table: "BlueSky" splits at the internal capital and
becomes "blue sky"; "cats and dogs" passes the word-count limit, loses
its middle "and", and both remaining words are singularized to give
"cat dog"; the single letter "x" is exempt from the minimum length and
survives; "123abc widget" is rejected for its three leading digits. -/
theorem claim7_normalize_example_table :
    normalize_keyword "BlueSky" [] Config.default = .ok (some "blue sky")
    ∧ normalize_keyword "cats and dogs" [] Config.default = .ok (some "cat dog")
    ∧ normalize_keyword "x" [] Config.default = .ok (some "x")
    ∧ normalize_keyword "123abc widget" [] Config.default = .ok none := by
  refine ⟨by decide, by decide, by decide, by decide⟩

/-- C10 counterexample: `normalize_keyword` is not total on strings
under the default configuration — a keyword consisting only of
punctuation cleans to zero tokens, and the leading-digit check then
raises an uncaught IndexError on `words[0]`. -/
theorem claim10_counterexample :
    normalize_keyword "!!!" [] Config.default = .error "IndexError" := by
  decide

/-- C10 amended: under the default configuration `normalize_keyword`
raises (the modelled IndexError) exactly on the inputs whose cleaned
form has zero tokens; on every other string it returns a normalized
keyword or a rejection without raising. -/
theorem claim10_total_unless_cleaned_empty :
    (∀ (s : String) (bw : List String) (e : String),
        normalize_keyword s bw Config.default = .error e →
        cleanTokens s Config.default = [])
    ∧ (∀ (s : String) (bw : List String),
        cleanTokens s Config.default = [] →
        normalize_keyword s bw Config.default = .error "IndexError") := by
  constructor
  · intro s bw e h
    unfold normalize_keyword at h
    rw [if_neg (by decide)] at h
    exact normalizeClean_error_eq_nil bw Config.default _ e h
  · intro s bw h
    unfold normalize_keyword
    rw [h, if_neg (by decide)]
    rfl

/-- C10 amended, witness: the error direction applied at the concrete
input "!!!" shows its cleaned token list is empty. -/
theorem claim10_total_unless_cleaned_empty_witness :
    cleanTokens "!!!" Config.default = [] := by
  exact claim10_total_unless_cleaned_empty.1 "!!!" [] "IndexError" (by decide)

end ImageIndexer
